import Mathlib

/-
Verification of the kdb on-device debugger (kdb.h, kdb.cpp): a shallow
embedding of its serial frame protocol, dispatch switch, capture registry
and session loop, together with proofs about the claimed properties.

Modelling conventions:
  * serial input is an explicit list of byte values (available() is true
    exactly while the list is nonempty); serial output is a list of bytes;
  * the 32-byte scratch buffer readbuf, raw memory and the pin bank are
    total functions from Nat; machine bytes are Nat values with an explicit
    % 256 exactly where the C code truncates into a uint8_t;
  * busy-wait loops that can run forever take an explicit fuel argument;
    running out of fuel (and a read that starves for input) is reported as
    a final result of none, meaning the C loop never returns;
  * every completed dispatch is additionally recorded as a Frame value so
    that theorems can talk about which frames the reader completed.
-/

set_option linter.unusedVariables false
set_option maxRecDepth 10000

namespace KDB

/-- Opcode enumeration, in the declaration order of enum _KDB_OpType
(kdb.h lines 20-36). -/
inductive OpType
  | RETURN
  | READ_MEM
  | WRITE_MEM
  | READ_CAP
  | WRITE_CAP
  | READ_PIN
  | WRITE_PIN
  | INIT
  | DEBUGGER
  | CAPTURE
  | READ_MEM_RES
  | READ_CAP_RES
  | READ_PIN_RES
  | PRINT

/-- Wire byte of each opcode: its position in the enumeration (C enum
values are assigned 0, 1, 2, ... in declaration order). -/
def OpType.toByte : OpType → Nat
  | .RETURN => 0
  | .READ_MEM => 1
  | .WRITE_MEM => 2
  | .READ_CAP => 3
  | .WRITE_CAP => 4
  | .READ_PIN => 5
  | .WRITE_PIN => 6
  | .INIT => 7
  | .DEBUGGER => 8
  | .CAPTURE => 9
  | .READ_MEM_RES => 10
  | .READ_CAP_RES => 11
  | .READ_PIN_RES => 12
  | .PRINT => 13

/-- One capture slot: struct _KDB_PtrWithSize (kdb.h lines 39-43). The C
pointer is modelled as a raw numeric address into mem. -/
structure CapSlot where
  size : Nat
  ptr : Nat
  deriving DecidableEq

/-- The state of the _KDB object (kdb.h lines 46-54) together with the
ambient machine: caps is the C array caps[32] (the C code performs no
bounds check, so the model keeps it total over Nat: indices at or past 32
stand for the out-of-bounds storage the C code would touch), capsize and
loops are the fields of the same names, readbuf is the 32-byte scratch
buffer (again total: index 32 and beyond stand for storage past the array),
mem is raw memory and pins is the digital pin bank. -/
structure KState where
  caps : Nat → CapSlot
  capsize : Nat
  readbuf : Nat → Nat
  loops : Bool
  mem : Nat → Nat
  pins : Nat → Nat

/-- One decoded protocol frame: its opcode byte and payload bytes. Used to
record, as an observation, each frame the reader completes and hands to
the dispatch switch. -/
structure Frame where
  opcode : Nat
  payload : List Nat
  deriving DecidableEq

/-- Result of running a receive loop: the frames it dispatched, the bytes
it wrote to the serial port, and (final state, unread input) when the loop
returned, or none when it never returns (starved busy-wait). -/
structure ReadResult where
  frames : List Frame
  output : List Nat
  final : Option (KState × List Nat)

/-- Pointwise update of a byte store: the effect of buf[i] = v. -/
def writeBuf (buf : Nat → Nat) (i v : Nat) : Nat → Nat :=
  fun j => if j = i then v else buf j

/-- Byte store holding the bytes of a list (0 past its end). -/
def bufOfList (p : List Nat) : Nat → Nat :=
  fun i => p.getD i 0

/-- Effect of memcpy(dst + di, src + si, n) on byte stores. -/
def memcpyBuf (dst : Nat → Nat) (di : Nat) (src : Nat → Nat) (si n : Nat) : Nat → Nat :=
  fun j => if di ≤ j ∧ j < di + n then src (si + (j - di)) else dst j

/-- Store of a source line number into the first two scratch bytes, as
done by debugger, init, capture, print and println: readbuf[0] = line >> 8
and readbuf[1] = line, both truncated into uint8_t cells. -/
def lineBuf (line : Nat) (buf : Nat → Nat) : Nat → Nat :=
  writeBuf (writeBuf buf 0 ((line >>> 8) % 256)) 1 (line % 256)

/-- _KDB::sendOp (kdb.cpp lines 150-160): writes the two sync bytes, the
opcode byte, the length byte, then opSize bytes taken from the scratch
buffer. -/
def sendOp (buf : Nat → Nat) (opType opSize : Nat) : List Nat :=
  160 :: 30 :: opType :: opSize :: (List.range opSize).map buf

/-- Inner loop of _KDB::readSize (kdb.cpp lines 253-263): stores each
arriving byte at readbuf[pos] and returns once pos reaches last
(the C code's size - 1). Starving for input (the C loop would spin
forever) is none. -/
def readSizeLoop : (Nat → Nat) → List Nat → Nat → Nat → Option ((Nat → Nat) × List Nat)
  | _, [], _, _ => none
  | buf, b :: rest, pos, last =>
    let buf2 := writeBuf buf pos b
    if pos = last then some (buf2, rest)
    else readSizeLoop buf2 rest (pos + 1) last

/-- _KDB::readSize (kdb.cpp lines 246-264): reads size bytes from the
serial input into readbuf[0..size-1]; returns immediately when size = 0. -/
def readSize (buf : Nat → Nat) (input : List Nat) (size : Nat) : Option ((Nat → Nat) × List Nat) :=
  if size = 0 then some (buf, input) else readSizeLoop buf input 0 (size - 1)

/-- Switch statement of _KDB::doOp (kdb.cpp lines 173-211), run once the
header and payload are in the scratch buffer. Cases appear in source
order; the compared values are the enum bytes. Returns the new state and
the bytes written to the serial port. -/
def execOp (opType : Nat) (s : KState) : KState × List Nat :=
  let b := s.readbuf
  if opType = OpType.RETURN.toByte then
    ({ s with loops := false }, [])
  else if opType = OpType.READ_MEM.toByte then
    let addr := b 0 <<< 24 ||| b 1 <<< 16 ||| b 2 <<< 8 ||| b 3
    let size := b 4
    let buf2 := memcpyBuf b 0 s.mem addr size
    ({ s with readbuf := buf2 }, sendOp buf2 OpType.READ_MEM_RES.toByte size)
  else if opType = OpType.WRITE_MEM.toByte then
    let addr := b 0 <<< 24 ||| b 1 <<< 16 ||| b 2 <<< 8 ||| b 3
    let size := b 4
    ({ s with mem := memcpyBuf s.mem addr b 5 size }, [])
  else if opType = OpType.READ_PIN.toByte then
    let pin := b 0
    let buf2 := writeBuf b 0 (s.pins pin)
    ({ s with readbuf := buf2 }, sendOp buf2 OpType.READ_PIN_RES.toByte 1)
  else if opType = OpType.WRITE_PIN.toByte then
    let pin := b 0
    ({ s with pins := fun q => if q = pin then b 1 else s.pins q }, [])
  else if opType = OpType.READ_CAP.toByte then
    let pos := b 0
    let slot := s.caps pos
    let buf2 := memcpyBuf b 0 s.mem slot.ptr slot.size
    ({ s with readbuf := buf2 }, sendOp buf2 OpType.READ_CAP_RES.toByte slot.size)
  else if opType = OpType.WRITE_CAP.toByte then
    let pos := b 0
    let slot := s.caps pos
    ({ s with mem := memcpyBuf s.mem slot.ptr b 1 slot.size }, [])
  else
    (s, [])

/-- _KDB::doOp (kdb.cpp lines 162-211): reads the two header bytes
(opcode, declared payload length), reads that many payload bytes into the
scratch buffer, then runs the switch. The returned Frame records the
completed frame as an observation; none models a read that blocks forever
for missing input. -/
def doOp (s : KState) (input : List Nat) : Option (KState × List Nat × List Nat × Frame) :=
  match readSize s.readbuf input 2 with
  | none => none
  | some (buf1, in1) =>
    let opType := buf1 0
    let opSize := buf1 1
    match readSize buf1 in1 opSize with
    | none => none
    | some (buf2, in2) =>
      let e := execOp opType { s with readbuf := buf2 }
      some (e.1, in2, e.2, ⟨opType, in1.take opSize⟩)

/-- One budget decrement of _KDB::readOp (kdb.cpp lines 218-225): 255 is
the unbounded sentinel and is left alone; otherwise maxloop is a uint8_t,
so decrementing 0 wraps to 255. -/
def tick (m : Nat) : Nat :=
  if m = 255 then 255 else if m = 0 then 255 else m - 1

/-- Loop body of _KDB::readOp (kdb.cpp lines 213-244), with explicit fuel
bounding the number of while iterations. Each iteration: exit if loops is
clear; decrement the budget unless it is the 255 sentinel and return once
it hits 0; otherwise, if a byte is available, consume it: 0xA0 arms isOp,
0x1E with isOp armed runs doOp and clears isOp, and any other byte is
skipped (note: it does not clear isOp). -/
def readOpGo : Nat → KState → List Nat → Nat → Nat → ReadResult
  | 0, _, _, _, _ => ⟨[], [], none⟩
  | fuel + 1, s, input, isOp, maxloop =>
    if s.loops = false then ⟨[], [], some (s, input)⟩
    else if maxloop ≠ 255 ∧ tick maxloop = 0 then ⟨[], [], some (s, input)⟩
    else
      match input with
      | [] => readOpGo fuel s [] isOp (tick maxloop)
      | b :: rest =>
        if b = 160 then readOpGo fuel s rest 1 (tick maxloop)
        else if b = 30 then
          if isOp = 1 then
            match doOp s rest with
            | none => ⟨[], [], none⟩
            | some (s2, rest2, out, f) =>
              let r := readOpGo fuel s2 rest2 0 (tick maxloop)
              ⟨f :: r.frames, out ++ r.output, r.final⟩
          else readOpGo fuel s rest isOp (tick maxloop)
        else readOpGo fuel s rest isOp (tick maxloop)

/-- _KDB::readOp (kdb.cpp lines 213-244): the scan starts with isOp = 0.
The supplied fuel (all input bytes plus the full 8-bit budget range) is
enough for the loop to reach whichever exit the C code would reach;
exhausting it happens exactly when the C loop spins forever on an empty
serial line. -/
def readOp (s : KState) (input : List Nat) (maxloop : Nat) : ReadResult :=
  readOpGo (input.length + 256) s input 0 maxloop

/-- _KDB::capture (kdb.cpp lines 32-51): builds the 8-byte CAPTURE
payload (line big-endian, address big-endian, size, current capsize) in
the scratch buffer, records the slot at index capsize, announces the
frame and increments capsize (a uint8_t, hence the % 256). The address
and size arguments stand for the uint8_t-widened values the C code
receives. -/
def capture (line addr size : Nat) (s : KState) : KState × List Nat :=
  let b0 := writeBuf s.readbuf 0 ((line >>> 8) % 256)
  let b1 := writeBuf b0 1 (line % 256)
  let b2 := writeBuf b1 2 ((addr >>> 24) % 256)
  let b3 := writeBuf b2 3 ((addr >>> 16) % 256)
  let b4 := writeBuf b3 4 ((addr >>> 8) % 256)
  let b5 := writeBuf b4 5 (addr % 256)
  let b6 := writeBuf b5 6 size
  let b7 := writeBuf b6 7 (s.capsize % 256)
  let caps2 := fun j => if j = s.capsize then (⟨size, addr⟩ : CapSlot) else s.caps j
  ({ s with readbuf := b7, caps := caps2, capsize := (s.capsize + 1) % 256 },
   sendOp b7 OpType.CAPTURE.toByte 8)

/-- Sequence of capture registrations (line, address, size), returning the
final state and the announced frame of each call in order. -/
def captureSeq : List (Nat × Nat × Nat) → KState → KState × List (List Nat)
  | [], s => (s, [])
  | (line, addr, size) :: rest, s =>
    let c := capture line addr size s
    let r := captureSeq rest c.1
    (r.1, c.2 :: r.2)

/-- The INIT announcement bytes _KDB::init emits each round: sync bytes,
INIT opcode, length 2, then the line number big-endian as two uint8_t
stores. -/
def initAnnounce (line : Nat) : List Nat :=
  [160, 30, OpType.INIT.toByte, 2, (line >>> 8) % 256, line % 256]

/-- One round of the _KDB::init while body (kdb.cpp lines 57-64): store
the line number into the scratch buffer, announce an INIT frame, then
poll with the bounded budget 200. The delay(100) pause changes no
modelled state. -/
def initStep (line : Nat) (s : KState) (input : List Nat) : ReadResult :=
  let b := lineBuf line s.readbuf
  let r := readOp { s with readbuf := b } input 200
  ⟨r.frames, sendOp b OpType.INIT.toByte 2 ++ r.output, r.final⟩

/-- While loop of _KDB::init, with fuel bounding the number of
announce-and-wait rounds; none means the loop was still running. -/
def initLoop : Nat → Nat → KState → List Nat → ReadResult
  | 0, _, _, _ => ⟨[], [], none⟩
  | fuel + 1, line, s, input =>
    if s.loops = false then ⟨[], [], some (s, input)⟩
    else
      let r := initStep line s input
      match r.final with
      | none => ⟨r.frames, r.output, none⟩
      | some (s2, input2) =>
        let r2 := initLoop fuel line s2 input2
        ⟨r.frames ++ r2.frames, r.output ++ r2.output, r2.final⟩

/-- _KDB::init (kdb.cpp lines 53-65): sets loops, resets capsize to 0 and
enters the announce-and-wait loop. -/
def init (fuel line : Nat) (s : KState) (input : List Nat) : ReadResult :=
  initLoop fuel line { s with loops := true, capsize := 0 } input

/-- _KDB::debugger (kdb.cpp lines 23-30): stores the line number,
announces a DEBUGGER frame, sets loops and polls unboundedly (default
budget 255). -/
def debugger (line : Nat) (s : KState) (input : List Nat) : ReadResult :=
  let b := lineBuf line s.readbuf
  let r := readOp { s with readbuf := b, loops := true } input 255
  ⟨r.frames, sendOp b OpType.DEBUGGER.toByte 2 ++ r.output, r.final⟩

/-- _KDB::print(line, const char*) (kdb.cpp lines 67-76): len is the
string length truncated into a uint8_t and then capped at 29; payload is
the big-endian line, the print-kind byte 0, then len text bytes. -/
def print (line : Nat) (str : List Nat) (s : KState) : KState × List Nat :=
  let len0 := str.length % 256
  let len := if 29 < len0 then 29 else len0
  let b2 := writeBuf (lineBuf line s.readbuf) 2 0
  let b3 := memcpyBuf b2 3 (bufOfList str) 0 len
  ({ s with readbuf := b3 }, sendOp b3 OpType.PRINT.toByte (len + 3))

/-- _KDB::println(line, const char*) (kdb.cpp lines 106-115): identical to
print except the print-kind byte is 1. -/
def println (line : Nat) (str : List Nat) (s : KState) : KState × List Nat :=
  let len0 := str.length % 256
  let len := if 29 < len0 then 29 else len0
  let b2 := writeBuf (lineBuf line s.readbuf) 2 1
  let b3 := memcpyBuf b2 3 (bufOfList str) 0 len
  ({ s with readbuf := b3 }, sendOp b3 OpType.PRINT.toByte (len + 3))

/-- Decides whether a byte list contains the exact contiguous two-byte
subsequence 0xA0, 0x1E. -/
def hasSyncPair : List Nat → Bool
  | 160 :: 30 :: _ => true
  | _ :: rest => hasSyncPair rest
  | [] => false

/-- Concatenation of n copies of a list. -/
def repConcat : Nat → List Nat → List Nat
  | 0, _ => []
  | n + 1, l => l ++ repConcat n l

/-- A freshly constructed _KDB object (kdb.cpp lines 12-21) with zeroed
memory and pins, except that loops is set as it is on entering a wait
state. -/
def st0 : KState :=
  { caps := fun _ => ⟨0, 0⟩
    capsize := 0
    readbuf := fun _ => 0
    loops := true
    mem := fun _ => 0
    pins := fun _ => 0 }

/-- A session state with one registered capture slot of size 2 at address
100, recognizable stale scratch-buffer contents and nonzero memory, used
to witness the capture-slot transfer theorems. -/
def stCap : KState :=
  { caps := fun i => if i = 0 then ⟨2, 100⟩ else ⟨0, 0⟩
    capsize := 1
    readbuf := fun i => 40 + i
    loops := true
    mem := fun a => a % 7
    pins := fun _ => 0 }

end KDB

namespace KDB

lemma writeBuf_same (buf : Nat → Nat) (i v : Nat) : writeBuf buf i v i = v := by
  simp [writeBuf]

lemma writeBuf_ne (buf : Nat → Nat) (i v j : Nat) (h : j ≠ i) : writeBuf buf i v j = buf j := by
  simp [writeBuf, h]

lemma memcpyBuf_in (dst : Nat → Nat) (di : Nat) (src : Nat → Nat) (si n j : Nat)
    (h1 : di ≤ j) (h2 : j < di + n) : memcpyBuf dst di src si n j = src (si + (j - di)) := by
  simp [memcpyBuf, h1, h2]

lemma memcpyBuf_out (dst : Nat → Nat) (di : Nat) (src : Nat → Nat) (si n j : Nat)
    (h : j < di ∨ di + n ≤ j) : memcpyBuf dst di src si n j = dst j := by
  have h2 : ¬(di ≤ j ∧ j < di + n) := by omega
  simp [memcpyBuf, h2]

lemma readSizeLoop_length : ∀ (input : List Nat) (buf : Nat → Nat) (pos last : Nat)
    (buf2 : Nat → Nat) (rest : List Nat),
    readSizeLoop buf input pos last = some (buf2, rest) → rest.length ≤ input.length := by
  intro input
  induction input with
  | nil => intro buf pos last buf2 rest h; simp [readSizeLoop] at h
  | cons b tl ih =>
    intro buf pos last buf2 rest h
    simp only [readSizeLoop] at h
    by_cases hp : pos = last
    · rw [if_pos hp] at h
      simp only [Option.some.injEq, Prod.mk.injEq] at h
      obtain ⟨-, h2⟩ := h
      subst h2
      simp
    · rw [if_neg hp] at h
      have := ih _ _ _ _ _ h
      simp at this ⊢
      omega

lemma readSize_length (buf : Nat → Nat) (input : List Nat) (size : Nat)
    (buf2 : Nat → Nat) (rest : List Nat)
    (h : readSize buf input size = some (buf2, rest)) : rest.length ≤ input.length := by
  unfold readSize at h
  by_cases hz : size = 0
  · rw [if_pos hz] at h
    simp only [Option.some.injEq, Prod.mk.injEq] at h
    obtain ⟨-, h2⟩ := h
    subst h2
    exact le_refl _
  · rw [if_neg hz] at h
    exact readSizeLoop_length input buf 0 (size - 1) buf2 rest h

lemma readSizeLoop_eq : ∀ (input : List Nat) (buf : Nat → Nat) (pos last : Nat),
    pos ≤ last → last - pos < input.length →
    readSizeLoop buf input pos last =
      some (memcpyBuf buf pos (bufOfList input) 0 (last + 1 - pos),
        input.drop (last + 1 - pos)) := by
  intro input
  induction input with
  | nil => intro buf pos last h1 h2; simp at h2
  | cons b tl ih =>
    intro buf pos last h1 h2
    by_cases hp : pos = last
    · subst hp
      simp only [readSizeLoop, if_pos rfl]
      apply congrArg some
      apply Prod.ext
      · dsimp only
        funext j
        by_cases hj : j = pos
        · subst hj
          rw [writeBuf_same, memcpyBuf_in _ _ _ _ _ _ (le_refl _) (by omega)]
          simp [bufOfList]
        · rw [writeBuf_ne _ _ _ _ hj, memcpyBuf_out _ _ _ _ _ _ (by omega)]
      · dsimp only
        have h3 : pos + 1 - pos = 1 := by omega
        rw [h3]
        rfl
    · have hlt : pos < last := lt_of_le_of_ne h1 hp
      simp only [readSizeLoop, if_neg hp]
      rw [ih (writeBuf buf pos b) (pos + 1) last (by omega) (by simp at h2 ⊢; omega)]
      apply congrArg some
      apply Prod.ext
      · dsimp only
        funext j
        by_cases hj : pos + 1 ≤ j ∧ j < (pos + 1) + (last + 1 - (pos + 1))
        · rw [memcpyBuf_in _ _ _ _ _ _ hj.1 hj.2,
            memcpyBuf_in _ _ _ _ _ _ (by omega) (by omega)]
          simp only [bufOfList, Nat.zero_add]
          have h4 : j - pos = (j - (pos + 1)) + 1 := by omega
          rw [h4]
          rfl
        · by_cases hj2 : j = pos
          · subst hj2
            rw [memcpyBuf_out _ _ _ _ _ _ (by omega), writeBuf_same,
              memcpyBuf_in _ _ _ _ _ _ (le_refl _) (by omega)]
            simp [bufOfList]
          · rw [memcpyBuf_out _ _ _ _ _ _ (by omega), writeBuf_ne _ _ _ _ hj2,
              memcpyBuf_out _ _ _ _ _ _ (by omega)]
      · dsimp only
        have h5 : last + 1 - pos = (last + 1 - (pos + 1)) + 1 := by omega
        rw [h5]
        rfl

lemma readSize_eq (buf : Nat → Nat) (input : List Nat) (size : Nat)
    (h : size ≤ input.length) :
    readSize buf input size =
      some (memcpyBuf buf 0 (bufOfList input) 0 size, input.drop size) := by
  by_cases hz : size = 0
  · subst hz
    simp only [readSize, if_pos rfl]
    apply congrArg some
    apply Prod.ext
    · dsimp only
      funext j
      rw [memcpyBuf_out _ _ _ _ _ _ (by omega)]
    · simp
  · simp only [readSize, if_neg hz]
    rw [readSizeLoop_eq input buf 0 (size - 1) (by omega) (by omega)]
    have h2 : size - 1 + 1 - 0 = size := by omega
    rw [h2]

end KDB

namespace KDB

lemma rangeMap_getD : ∀ (n : Nat) (l : List Nat), n ≤ l.length →
    (List.range n).map (fun i => l.getD i 0) = l.take n := by
  intro n
  induction n with
  | zero => simp
  | succ k ih =>
    intro l h
    have hr : List.range (k + 1) = List.range k ++ [k] := by simp [List.range_succ]
    rw [hr, List.map_append, ih l (by omega), List.take_succ]
    simp [List.getD_eq_getElem?_getD, List.getElem?_eq_getElem (show k < l.length by omega)]

lemma rangeMap_bufOfList (p : List Nat) : (List.range p.length).map (bufOfList p) = p := by
  have h := rangeMap_getD p.length p (le_refl _)
  rw [List.take_length] at h
  exact h

lemma range_map_split (f : Nat → Nat) (k n : Nat) :
    (List.range (k + n)).map f = (List.range k).map f ++ (List.range n).map (fun i => f (k + i)) := by
  rw [List.range_add, List.map_append, List.map_map]
  rfl

lemma execOp_capsize (t : Nat) (s : KState) : (execOp t s).1.capsize = s.capsize := by
  unfold execOp
  split_ifs <;> rfl

lemma execOp_caps (t : Nat) (s : KState) : (execOp t s).1.caps = s.caps := by
  unfold execOp
  split_ifs <;> rfl

lemma execOp_loops (t : Nat) (s : KState) :
    (execOp t s).1.loops = (if t = OpType.RETURN.toByte then false else s.loops) := by
  unfold execOp
  split_ifs <;> rfl

lemma doOp_spec (s : KState) (input : List Nat) (s2 : KState) (rest out : List Nat) (f : Frame)
    (h : doOp s input = some (s2, rest, out, f)) :
    rest.length ≤ input.length ∧ s2.capsize = s.capsize ∧
      (s2.loops = false → s.loops = false ∨ f.opcode = OpType.RETURN.toByte) := by
  unfold doOp at h
  cases h1 : readSize s.readbuf input 2 with
  | none => rw [h1] at h; cases h
  | some v1 =>
    obtain ⟨buf1, in1⟩ := v1
    rw [h1] at h
    dsimp only at h
    cases h2 : readSize buf1 in1 (buf1 1) with
    | none => rw [h2] at h; cases h
    | some v2 =>
      obtain ⟨buf2, in2⟩ := v2
      rw [h2] at h
      dsimp only at h
      simp only [Option.some.injEq, Prod.mk.injEq] at h
      obtain ⟨he, hin, hout, hf⟩ := h
      subst he hin hf
      refine ⟨?_, ?_, ?_⟩
      · exact le_trans (readSize_length _ _ _ _ _ h2) (readSize_length _ _ _ _ _ h1)
      · rw [execOp_capsize]
      · intro hl
        rw [execOp_loops] at hl
        by_cases hop : buf1 0 = OpType.RETURN.toByte
        · exact Or.inr hop
        · rw [if_neg hop] at hl
          exact Or.inl hl

lemma doOp_eq (s : KState) (t : Nat) (payload rest : List Nat) :
    doOp s (t :: payload.length :: (payload ++ rest)) =
      some ((execOp t { s with readbuf := fun j =>
          if j < payload.length then payload.getD j 0
          else if j = 0 then t else if j = 1 then payload.length else s.readbuf j }).1,
        rest,
        (execOp t { s with readbuf := fun j =>
          if j < payload.length then payload.getD j 0
          else if j = 0 then t else if j = 1 then payload.length else s.readbuf j }).2,
        ⟨t, payload⟩) := by
  unfold doOp
  rw [readSize_eq s.readbuf (t :: payload.length :: (payload ++ rest)) 2 (by simp)]
  dsimp only
  have hb0 : memcpyBuf s.readbuf 0 (bufOfList (t :: payload.length :: (payload ++ rest))) 0 2 0 = t := by
    rw [memcpyBuf_in _ _ _ _ _ _ (by omega) (by omega)]
    rfl
  have hb1 : memcpyBuf s.readbuf 0 (bufOfList (t :: payload.length :: (payload ++ rest))) 0 2 1 = payload.length := by
    rw [memcpyBuf_in _ _ _ _ _ _ (by omega) (by omega)]
    rfl
  have hdrop : List.drop 2 (t :: payload.length :: (payload ++ rest)) = payload ++ rest := rfl
  rw [hb0, hb1, hdrop]
  rw [readSize_eq _ (payload ++ rest) payload.length (by simp)]
  dsimp only
  rw [List.drop_left, List.take_left]
  have hbuf : memcpyBuf
      (memcpyBuf s.readbuf 0 (bufOfList (t :: payload.length :: (payload ++ rest))) 0 2)
      0 (bufOfList (payload ++ rest)) 0 payload.length =
      fun j => if j < payload.length then payload.getD j 0
        else if j = 0 then t else if j = 1 then payload.length else s.readbuf j := by
    funext j
    by_cases hj : j < payload.length
    · rw [memcpyBuf_in _ _ _ _ _ _ (by omega) (by omega), if_pos hj]
      simp only [bufOfList, Nat.zero_add, Nat.sub_zero]
      rw [List.getD_eq_getElem?_getD, List.getD_eq_getElem?_getD,
        List.getElem?_append_left hj]
    · rw [memcpyBuf_out _ _ _ _ _ _ (by omega), if_neg hj]
      by_cases hj0 : j = 0
      · subst hj0
        rw [memcpyBuf_in _ _ _ _ _ _ (by omega) (by omega)]
        rfl
      · by_cases hj1 : j = 1
        · subst hj1
          rw [memcpyBuf_in _ _ _ _ _ _ (by omega) (by omega)]
          simp [bufOfList]
        · rw [memcpyBuf_out _ _ _ _ _ _ (by omega)]
          simp [hj0, hj1]
  rw [hbuf]

end KDB

namespace KDB

lemma tick_255 : tick 255 = 255 := rfl

lemma tick_sub (m : Nat) (h0 : m ≠ 0) (h255 : m ≠ 255) : tick m = m - 1 := by
  unfold tick
  rw [if_neg h255, if_neg h0]

lemma readOpGo_stop (fuel : Nat) (s : KState) (input : List Nat) (isOp m : Nat)
    (h : s.loops = false) :
    readOpGo (fuel + 1) s input isOp m = ⟨[], [], some (s, input)⟩ := by
  unfold readOpGo
  rw [if_pos h]

lemma readOpGo_budget (fuel : Nat) (s : KState) (input : List Nat) (isOp m : Nat)
    (h : s.loops = true) (hb : m ≠ 255) (ht : tick m = 0) :
    readOpGo (fuel + 1) s input isOp m = ⟨[], [], some (s, input)⟩ := by
  unfold readOpGo
  rw [if_neg (by simp [h]), if_pos ⟨hb, ht⟩]

lemma readOpGo_nil (fuel : Nat) (s : KState) (isOp m : Nat)
    (h : s.loops = true) (hg : ¬(m ≠ 255 ∧ tick m = 0)) :
    readOpGo (fuel + 1) s [] isOp m = readOpGo fuel s [] isOp (tick m) := by
  conv_lhs => unfold readOpGo
  rw [if_neg (by simp [h]), if_neg hg]

lemma readOpGo_sync (fuel : Nat) (s : KState) (rest : List Nat) (isOp m : Nat)
    (h : s.loops = true) (hg : ¬(m ≠ 255 ∧ tick m = 0)) :
    readOpGo (fuel + 1) s (160 :: rest) isOp m = readOpGo fuel s rest 1 (tick m) := by
  conv_lhs => unfold readOpGo
  rw [if_neg (by simp [h]), if_neg hg]
  rfl

lemma readOpGo_dispatch (fuel : Nat) (s : KState) (rest : List Nat) (m : Nat)
    (s2 : KState) (rest2 out : List Nat) (f : Frame)
    (h : s.loops = true) (hg : ¬(m ≠ 255 ∧ tick m = 0))
    (hd : doOp s rest = some (s2, rest2, out, f)) :
    readOpGo (fuel + 1) s (30 :: rest) 1 m =
      ⟨f :: (readOpGo fuel s2 rest2 0 (tick m)).frames,
       out ++ (readOpGo fuel s2 rest2 0 (tick m)).output,
       (readOpGo fuel s2 rest2 0 (tick m)).final⟩ := by
  conv_lhs => unfold readOpGo
  rw [if_neg (by simp [h]), if_neg hg]
  dsimp only
  rw [hd]
  rfl

lemma readOpGo_dispatch_none (fuel : Nat) (s : KState) (rest : List Nat) (m : Nat)
    (h : s.loops = true) (hg : ¬(m ≠ 255 ∧ tick m = 0))
    (hd : doOp s rest = none) :
    readOpGo (fuel + 1) s (30 :: rest) 1 m = ⟨[], [], none⟩ := by
  conv_lhs => unfold readOpGo
  rw [if_neg (by simp [h]), if_neg hg]
  dsimp only
  rw [hd]
  rfl

lemma readOpGo_skip30 (fuel : Nat) (s : KState) (rest : List Nat) (isOp m : Nat)
    (h : s.loops = true) (hg : ¬(m ≠ 255 ∧ tick m = 0)) (hi : isOp ≠ 1) :
    readOpGo (fuel + 1) s (30 :: rest) isOp m = readOpGo fuel s rest isOp (tick m) := by
  conv_lhs => unfold readOpGo
  rw [if_neg (by simp [h]), if_neg hg]
  dsimp only
  rw [if_neg hi]
  rfl

lemma readOpGo_skip (fuel : Nat) (s : KState) (b : Nat) (rest : List Nat) (isOp m : Nat)
    (h : s.loops = true) (hg : ¬(m ≠ 255 ∧ tick m = 0)) (hb1 : b ≠ 160) (hb2 : b ≠ 30) :
    readOpGo (fuel + 1) s (b :: rest) isOp m = readOpGo fuel s rest isOp (tick m) := by
  conv_lhs => unfold readOpGo
  rw [if_neg (by simp [h]), if_neg hg]
  dsimp only
  rw [if_neg hb1, if_neg hb2]

end KDB

namespace KDB

lemma readOpGo_nil255_frames : ∀ (fuel : Nat) (s : KState) (isOp : Nat),
    (readOpGo fuel s [] isOp 255).frames = [] := by
  intro fuel
  induction fuel with
  | zero => intro s isOp; rfl
  | succ k ih =>
    intro s isOp
    by_cases hl : s.loops = false
    · rw [readOpGo_stop k s [] isOp 255 hl]
    · have hl' : s.loops = true := by simpa using hl
      rw [readOpGo_nil k s isOp 255 hl' (by simp), tick_255]
      exact ih s isOp

lemma readOpGo_nil255_output : ∀ (fuel : Nat) (s : KState) (isOp : Nat),
    (readOpGo fuel s [] isOp 255).output = [] := by
  intro fuel
  induction fuel with
  | zero => intro s isOp; rfl
  | succ k ih =>
    intro s isOp
    by_cases hl : s.loops = false
    · rw [readOpGo_stop k s [] isOp 255 hl]
    · have hl' : s.loops = true := by simpa using hl
      rw [readOpGo_nil k s isOp 255 hl' (by simp), tick_255]
      exact ih s isOp

lemma readOpGo_nil_bounded : ∀ (fuel m : Nat) (s : KState) (isOp : Nat),
    s.loops = true → 0 < m → m < 255 → m ≤ fuel →
    readOpGo fuel s [] isOp m = ⟨[], [], some (s, [])⟩ := by
  intro fuel
  induction fuel with
  | zero => intro m s isOp h h1 h2 h3; omega
  | succ k ih =>
    intro m s isOp h h1 h2 h3
    by_cases hm : m = 1
    · subst hm
      exact readOpGo_budget k s [] isOp 1 h (by omega) (by rw [tick_sub 1 (by omega) (by omega)])
    · have ht : tick m = m - 1 := tick_sub m (by omega) (by omega)
      rw [readOpGo_nil k s isOp m h (by rw [ht]; omega), ht]
      exact ih (m - 1) s isOp h (by omega) (by omega) (by omega)

lemma readOpGo_final : ∀ (fuel : Nat) (s : KState) (input : List Nat) (isOp m : Nat)
    (s2 : KState) (rest : List Nat),
    (readOpGo fuel s input isOp m).final = some (s2, rest) →
    s2.capsize = s.capsize ∧
      (s2.loops = false → s.loops = false ∨
        ∃ f ∈ (readOpGo fuel s input isOp m).frames, f.opcode = OpType.RETURN.toByte) := by
  intro fuel
  induction fuel with
  | zero => intro s input isOp m s2 rest h; cases h
  | succ k ih =>
    intro s input isOp m s2 rest h
    by_cases hl : s.loops = false
    · rw [readOpGo_stop k s input isOp m hl] at h ⊢
      simp only [Option.some.injEq, Prod.mk.injEq] at h
      obtain ⟨h1, -⟩ := h
      subst h1
      exact ⟨rfl, fun hf => Or.inl hf⟩
    · have hl' : s.loops = true := by simpa using hl
      by_cases hg : m ≠ 255 ∧ tick m = 0
      · rw [readOpGo_budget k s input isOp m hl' hg.1 hg.2] at h ⊢
        simp only [Option.some.injEq, Prod.mk.injEq] at h
        obtain ⟨h1, -⟩ := h
        subst h1
        exact ⟨rfl, fun hf => Or.inl hf⟩
      · cases input with
        | nil =>
          rw [readOpGo_nil k s isOp m hl' hg] at h ⊢
          exact ih s [] isOp (tick m) s2 rest h
        | cons b rest' =>
          by_cases hb : b = 160
          · subst hb
            rw [readOpGo_sync k s rest' isOp m hl' hg] at h ⊢
            exact ih s rest' 1 (tick m) s2 rest h
          · by_cases hb2 : b = 30
            · subst hb2
              by_cases hi : isOp = 1
              · subst hi
                cases hd : doOp s rest' with
                | none =>
                  rw [readOpGo_dispatch_none k s rest' m hl' hg hd] at h
                  cases h
                | some q =>
                  obtain ⟨sd, restd, outd, fd⟩ := q
                  rw [readOpGo_dispatch k s rest' m sd restd outd fd hl' hg hd] at h ⊢
                  dsimp only at h ⊢
                  obtain ⟨hc, hlo⟩ := ih sd restd 0 (tick m) s2 rest h
                  have hds := doOp_spec s rest' sd restd outd fd hd
                  refine ⟨by rw [hc, hds.2.1], ?_⟩
                  intro hf
                  rcases hlo hf with hdl | ⟨f, hfm, hfo⟩
                  · rcases hds.2.2 hdl with hsl | hret
                    · exact Or.inl hsl
                    · exact Or.inr ⟨fd, by simp, hret⟩
                  · exact Or.inr ⟨f, by simp [hfm], hfo⟩
              · rw [readOpGo_skip30 k s rest' isOp m hl' hg hi] at h ⊢
                exact ih s rest' isOp (tick m) s2 rest h
            · rw [readOpGo_skip k s b rest' isOp m hl' hg hb hb2] at h ⊢
              exact ih s rest' isOp (tick m) s2 rest h

lemma readOpGo_no_sync : ∀ (fuel : Nat) (s : KState) (input : List Nat) (isOp m : Nat),
    160 ∉ input → isOp ≠ 1 → (readOpGo fuel s input isOp m).frames = [] := by
  intro fuel
  induction fuel with
  | zero => intro s input isOp m h1 h2; rfl
  | succ k ih =>
    intro s input isOp m h1 h2
    by_cases hl : s.loops = false
    · rw [readOpGo_stop k s input isOp m hl]
    · have hl' : s.loops = true := by simpa using hl
      by_cases hg : m ≠ 255 ∧ tick m = 0
      · rw [readOpGo_budget k s input isOp m hl' hg.1 hg.2]
      · cases input with
        | nil =>
          rw [readOpGo_nil k s isOp m hl' hg]
          exact ih s [] isOp (tick m) h1 h2
        | cons b rest' =>
          have hb : b ≠ 160 := fun hc => h1 (by simp [hc])
          have hrest : 160 ∉ rest' := fun hc => h1 (by simp [hc])
          by_cases hb2 : b = 30
          · subst hb2
            rw [readOpGo_skip30 k s rest' isOp m hl' hg h2]
            exact ih s rest' isOp (tick m) hrest h2
          · rw [readOpGo_skip k s b rest' isOp m hl' hg hb hb2]
            exact ih s rest' isOp (tick m) hrest h2

lemma readOp_final (s : KState) (input : List Nat) (m : Nat) (s2 : KState) (rest : List Nat)
    (h : (readOp s input m).final = some (s2, rest)) :
    s2.capsize = s.capsize ∧
      (s2.loops = false → s.loops = false ∨
        ∃ f ∈ (readOp s input m).frames, f.opcode = OpType.RETURN.toByte) :=
  readOpGo_final (input.length + 256) s input 0 m s2 rest h

end KDB

namespace KDB

lemma readOp_sendOp_frames (op : Nat) (p : List Nat) (s : KState) (h : s.loops = true) :
    (readOp s (sendOp (bufOfList p) op p.length) 255).frames = [⟨op, p⟩] := by
  unfold readOp sendOp
  rw [rangeMap_bufOfList]
  have hlen : (160 :: 30 :: op :: p.length :: p).length + 256 = (p.length + 259) + 1 := by
    simp
  rw [hlen]
  rw [readOpGo_sync (p.length + 259) s (30 :: op :: p.length :: p) 0 255 h (by simp), tick_255]
  have h259 : p.length + 259 = (p.length + 258) + 1 := by omega
  rw [h259]
  have hd := doOp_eq s op p []
  rw [List.append_nil] at hd
  rw [readOpGo_dispatch (p.length + 258) s (op :: p.length :: p) 255 _ _ _ _ h (by simp) hd]
  dsimp only
  rw [tick_255, readOpGo_nil255_frames]

lemma initStep_nil (line : Nat) (s : KState) (h : s.loops = true) :
    initStep line s [] =
      ⟨[], initAnnounce line, some ({ s with readbuf := lineBuf line s.readbuf }, [])⟩ := by
  unfold initStep readOp
  dsimp only
  rw [readOpGo_nil_bounded (List.length ([] : List Nat) + 256) 200
    { s with readbuf := lineBuf line s.readbuf } 0 h (by omega) (by omega) (by simp)]
  rfl

lemma initLoop_succ_stop (k line : Nat) (s : KState) (input : List Nat) (hl : s.loops = false) :
    initLoop (k + 1) line s input = ⟨[], [], some (s, input)⟩ := by
  conv_lhs => unfold initLoop
  rw [if_pos hl]

lemma initLoop_succ_none (k line : Nat) (s : KState) (input : List Nat)
    (hl : s.loops = true) (hr : (initStep line s input).final = none) :
    initLoop (k + 1) line s input =
      ⟨(initStep line s input).frames, (initStep line s input).output, none⟩ := by
  conv_lhs => unfold initLoop
  rw [if_neg (by simp [hl])]
  dsimp only
  rw [hr]

lemma initLoop_succ_some (k line : Nat) (s : KState) (input : List Nat)
    (sm : KState) (im : List Nat)
    (hl : s.loops = true) (hr : (initStep line s input).final = some (sm, im)) :
    initLoop (k + 1) line s input =
      ⟨(initStep line s input).frames ++ (initLoop k line sm im).frames,
       (initStep line s input).output ++ (initLoop k line sm im).output,
       (initLoop k line sm im).final⟩ := by
  conv_lhs => unfold initLoop
  rw [if_neg (by simp [hl])]
  dsimp only
  rw [hr]

end KDB

namespace KDB

lemma initLoop_nil : ∀ (fuel line : Nat) (s : KState), s.loops = true →
    initLoop fuel line s [] = ⟨[], repConcat fuel (initAnnounce line), none⟩ := by
  intro fuel
  induction fuel with
  | zero => intro line s h; rfl
  | succ k ih =>
    intro line s h
    rw [initLoop_succ_some k line s []
      { s with readbuf := lineBuf line s.readbuf } [] h
      (by rw [initStep_nil line s h])]
    rw [initStep_nil line s h, ih line { s with readbuf := lineBuf line s.readbuf } h]
    rfl

lemma initLoop_final : ∀ (fuel line : Nat) (s : KState) (input : List Nat)
    (s2 : KState) (rest : List Nat),
    (initLoop fuel line s input).final = some (s2, rest) →
    s2.loops = false ∧ s2.capsize = s.capsize ∧
      (s.loops = true →
        ∃ f ∈ (initLoop fuel line s input).frames, f.opcode = OpType.RETURN.toByte) := by
  intro fuel
  induction fuel with
  | zero => intro line s input s2 rest h; cases h
  | succ k ih =>
    intro line s input s2 rest h
    by_cases hl : s.loops = false
    · rw [initLoop_succ_stop k line s input hl] at h ⊢
      simp only [Option.some.injEq, Prod.mk.injEq] at h
      obtain ⟨h1, -⟩ := h
      subst h1
      exact ⟨hl, rfl, fun ht => by rw [ht] at hl; cases hl⟩
    · have hl' : s.loops = true := by simpa using hl
      cases hr : (initStep line s input).final with
      | none =>
        rw [initLoop_succ_none k line s input hl' hr] at h
        cases h
      | some q =>
        obtain ⟨sm, im⟩ := q
        rw [initLoop_succ_some k line s input sm im hl' hr] at h ⊢
        dsimp only at h ⊢
        obtain ⟨h1, h2, h3⟩ := ih line sm im s2 rest h
        have hro : (readOp { s with readbuf := lineBuf line s.readbuf } input 200).final =
            some (sm, im) := hr
        obtain ⟨hc, himp⟩ := readOp_final _ input 200 sm im hro
        refine ⟨h1, by rw [h2]; exact hc, ?_⟩
        intro ht
        by_cases hml : sm.loops = false
        · rcases himp hml with hslf | ⟨f, hfm, hfo⟩
          · have hslf2 : s.loops = false := hslf
            rw [ht] at hslf2
            cases hslf2
          · exact ⟨f, List.mem_append_left _ hfm, hfo⟩
        · have hml' : sm.loops = true := by simpa using hml
          obtain ⟨f, hfm, hfo⟩ := h3 hml'
          exact ⟨f, List.mem_append_right _ hfm, hfo⟩

end KDB

namespace KDB

lemma capture_capsize (line addr size : Nat) (s : KState) (h : s.capsize < 255) :
    (capture line addr size s).1.capsize = s.capsize + 1 := by
  unfold capture
  dsimp only
  rw [Nat.mod_eq_of_lt (by omega)]

lemma capture_caps (line addr size : Nat) (s : KState) :
    (capture line addr size s).1.caps =
      fun j => if j = s.capsize then (⟨size, addr⟩ : CapSlot) else s.caps j := rfl

lemma capture_out11 (line addr size : Nat) (s : KState) :
    (capture line addr size s).2.getD 11 0 = s.capsize % 256 := rfl

lemma captureSeq_spec : ∀ (regs : List (Nat × Nat × Nat)) (s : KState),
    s.capsize + regs.length ≤ 32 →
    (captureSeq regs s).1.capsize = s.capsize + regs.length ∧
    (∀ j, j < s.capsize ∨ s.capsize + regs.length ≤ j →
      (captureSeq regs s).1.caps j = s.caps j) ∧
    (∀ i, i < regs.length →
      ((captureSeq regs s).2.getD i []).getD 11 0 = s.capsize + i ∧
      (captureSeq regs s).1.caps (s.capsize + i) =
        ⟨(regs.getD i (0, 0, 0)).2.2, (regs.getD i (0, 0, 0)).2.1⟩) := by
  intro regs
  induction regs with
  | nil =>
    intro s h
    refine ⟨by simp [captureSeq], fun j hj => by simp [captureSeq], fun i hi => by simp at hi⟩
  | cons r tl ih =>
    obtain ⟨line, addr, size⟩ := r
    intro s h
    have hlen : tl.length + 1 = ((line, addr, size) :: tl).length := by simp
    have hcs : (capture line addr size s).1.capsize = s.capsize + 1 :=
      capture_capsize line addr size s (by simp at h; omega)
    have hstep : captureSeq ((line, addr, size) :: tl) s =
        ((captureSeq tl (capture line addr size s).1).1,
         (capture line addr size s).2 :: (captureSeq tl (capture line addr size s).1).2) := rfl
    obtain ⟨ih1, ih2, ih3⟩ := ih (capture line addr size s).1 (by rw [hcs]; simp at h ⊢; omega)
    rw [hstep]
    dsimp only
    refine ⟨?_, ?_, ?_⟩
    · rw [ih1, hcs]
      simp
      omega
    · intro j hj
      rw [ih2 j (by rw [hcs]; simp at hj; omega)]
      rw [capture_caps]
      have hne : j ≠ s.capsize := by simp at hj; omega
      simp [hne]
    · intro i hi
      cases i with
      | zero =>
        constructor
        · rw [List.getD_cons_zero, capture_out11,
            Nat.mod_eq_of_lt (show s.capsize < 256 by simp at h; omega)]
          omega
        · rw [Nat.add_zero, ih2 s.capsize (by rw [hcs]; omega), capture_caps]
          simp
      | succ i2 =>
        have hi2 : i2 < tl.length := by simp at hi; omega
        obtain ⟨ha, hb⟩ := ih3 i2 hi2
        constructor
        · rw [List.getD_cons_succ, ha, hcs]
          omega
        · have harg : s.capsize + (i2 + 1) = (capture line addr size s).1.capsize + i2 := by
            rw [hcs]; omega
          rw [harg, hb]
          rfl

end KDB

namespace KDB

lemma printBuf_payload (str : List Nat) (kind L : Nat) (b2 : Nat → Nat)
    (hL : L ≤ str.length) (hb2 : b2 2 = kind) :
    (List.range (L + 3)).map (memcpyBuf b2 3 (bufOfList str) 0 L) =
      b2 0 :: b2 1 :: kind :: str.take L := by
  have hsplit : L + 3 = 3 + L := by omega
  rw [hsplit, range_map_split]
  have h0 : memcpyBuf b2 3 (bufOfList str) 0 L 0 = b2 0 :=
    memcpyBuf_out _ _ _ _ _ _ (by omega)
  have h1 : memcpyBuf b2 3 (bufOfList str) 0 L 1 = b2 1 :=
    memcpyBuf_out _ _ _ _ _ _ (by omega)
  have h2 : memcpyBuf b2 3 (bufOfList str) 0 L 2 = kind := by
    rw [memcpyBuf_out _ _ _ _ _ _ (by omega), hb2]
  have h3 : (List.range 3).map (memcpyBuf b2 3 (bufOfList str) 0 L) =
      [memcpyBuf b2 3 (bufOfList str) 0 L 0, memcpyBuf b2 3 (bufOfList str) 0 L 1,
        memcpyBuf b2 3 (bufOfList str) 0 L 2] := rfl
  rw [h3, h0, h1, h2]
  have htail : (List.range L).map (fun i => memcpyBuf b2 3 (bufOfList str) 0 L (3 + i)) =
      str.take L := by
    have hcong : ∀ i ∈ List.range L,
        memcpyBuf b2 3 (bufOfList str) 0 L (3 + i) = str.getD i 0 := by
      intro i hi
      rw [List.mem_range] at hi
      rw [memcpyBuf_in _ _ _ _ _ _ (by omega) (by omega)]
      have harg : 0 + (3 + i - 3) = i := by omega
      rw [harg]
      rfl
    rw [List.map_congr_left hcong, rangeMap_getD L str hL]
  rw [htail]
  rfl

lemma print_out (line : Nat) (str : List Nat) (s : KState) :
    (print line str s).2 =
      160 :: 30 :: 13 :: ((if 29 < str.length % 256 then 29 else str.length % 256) + 3) ::
        ((line >>> 8) % 256) :: (line % 256) :: 0 ::
        str.take (if 29 < str.length % 256 then 29 else str.length % 256) := by
  have hlen : (if 29 < str.length % 256 then 29 else str.length % 256) ≤ str.length := by
    have := Nat.mod_le str.length 256
    split_ifs <;> omega
  have hstep : (print line str s).2 =
      sendOp (memcpyBuf (writeBuf (lineBuf line s.readbuf) 2 0) 3 (bufOfList str) 0
          (if 29 < str.length % 256 then 29 else str.length % 256))
        OpType.PRINT.toByte
        ((if 29 < str.length % 256 then 29 else str.length % 256) + 3) := rfl
  rw [hstep]
  unfold sendOp
  rw [printBuf_payload str 0 (if 29 < str.length % 256 then 29 else str.length % 256)
    (writeBuf (lineBuf line s.readbuf) 2 0) hlen (writeBuf_same _ _ _)]
  rfl

lemma println_out (line : Nat) (str : List Nat) (s : KState) :
    (println line str s).2 =
      160 :: 30 :: 13 :: ((if 29 < str.length % 256 then 29 else str.length % 256) + 3) ::
        ((line >>> 8) % 256) :: (line % 256) :: 1 ::
        str.take (if 29 < str.length % 256 then 29 else str.length % 256) := by
  have hlen : (if 29 < str.length % 256 then 29 else str.length % 256) ≤ str.length := by
    have := Nat.mod_le str.length 256
    split_ifs <;> omega
  have hstep : (println line str s).2 =
      sendOp (memcpyBuf (writeBuf (lineBuf line s.readbuf) 2 1) 3 (bufOfList str) 0
          (if 29 < str.length % 256 then 29 else str.length % 256))
        OpType.PRINT.toByte
        ((if 29 < str.length % 256 then 29 else str.length % 256) + 3) := rfl
  rw [hstep]
  unfold sendOp
  rw [printBuf_payload str 1 (if 29 < str.length % 256 then 29 else str.length % 256)
    (writeBuf (lineBuf line s.readbuf) 2 1) hlen (writeBuf_same _ _ _)]
  rfl

end KDB

namespace KDB

lemma execOp_read_cap (s : KState) :
    execOp 3 s =
      ({ s with readbuf := memcpyBuf s.readbuf 0 s.mem (s.caps (s.readbuf 0)).ptr (s.caps (s.readbuf 0)).size },
       sendOp (memcpyBuf s.readbuf 0 s.mem (s.caps (s.readbuf 0)).ptr (s.caps (s.readbuf 0)).size)
         11 (s.caps (s.readbuf 0)).size) := rfl

lemma execOp_write_cap (s : KState) :
    execOp 4 s =
      ({ s with mem := memcpyBuf s.mem (s.caps (s.readbuf 0)).ptr s.readbuf 1 (s.caps (s.readbuf 0)).size },
       []) := rfl

lemma doOp_read_cap (s : KState) (idx : Nat) (rest : List Nat) :
    doOp s (3 :: 1 :: idx :: rest) =
      some ((execOp 3 { s with readbuf := fun j => if j < 1 then [idx].getD j 0 else if j = 0 then 3 else if j = 1 then 1 else s.readbuf j }).1,
        rest,
        160 :: 30 :: 11 :: (s.caps idx).size ::
          (List.range (s.caps idx).size).map (fun i => s.mem ((s.caps idx).ptr + i)),
        ⟨3, [idx]⟩) := by
  have h1 := doOp_eq s 3 [idx] rest
  simp only [List.length_singleton, List.singleton_append] at h1
  rw [h1]
  simp only [Option.some.injEq, Prod.mk.injEq, true_and, and_true]
  rw [execOp_read_cap]
  dsimp only
  have hidx : (if (0 : Nat) < 1 then [idx].getD 0 0 else if (0 : Nat) = 0 then 3
      else if (0 : Nat) = 1 then 1 else s.readbuf 0) = idx := by norm_num
  rw [hidx]
  have hmap : (List.range (s.caps idx).size).map
      (memcpyBuf (fun j => if j < 1 then [idx].getD j 0 else if j = 0 then 3
        else if j = 1 then 1 else s.readbuf j) 0 s.mem (s.caps idx).ptr (s.caps idx).size) =
      (List.range (s.caps idx).size).map (fun i => s.mem ((s.caps idx).ptr + i)) := by
    refine List.map_congr_left ?_
    intro i hi
    rw [List.mem_range] at hi
    rw [memcpyBuf_in _ _ _ _ _ _ (by omega) (by omega)]
    have harg : i - 0 = i := by omega
    rw [harg]
  rw [sendOp, hmap]

lemma doOp_write_cap (s : KState) (idx : Nat) (data rest : List Nat) :
    doOp s (4 :: (data.length + 1) :: idx :: (data ++ rest)) =
      some ((execOp 4 { s with readbuf := fun j => if j < data.length + 1 then (idx :: data).getD j 0 else if j = 0 then 4 else if j = 1 then data.length + 1 else s.readbuf j }).1,
        rest, [], ⟨4, idx :: data⟩) := by
  have h1 := doOp_eq s 4 (idx :: data) rest
  simp only [List.length_cons, List.cons_append] at h1
  rw [h1]
  simp only [Option.some.injEq, Prod.mk.injEq, true_and, and_true]
  rw [execOp_write_cap]

lemma write_cap_readbuf0 (s : KState) (idx : Nat) (data : List Nat) :
    (if (0 : Nat) < data.length + 1 then (idx :: data).getD 0 0 else if (0 : Nat) = 0 then 4
      else if (0 : Nat) = 1 then data.length + 1 else s.readbuf 0) = idx := by
  rw [if_pos (by omega)]
  rfl

lemma write_cap_mem_in (s : KState) (idx : Nat) (data : List Nat) (hd : 1 ≤ data.length) :
    ∀ i, i < (s.caps idx).size →
      ((execOp 4 { s with readbuf := fun j => if j < data.length + 1 then (idx :: data).getD j 0 else if j = 0 then 4 else if j = 1 then data.length + 1 else s.readbuf j }).1).mem
          ((s.caps idx).ptr + i) =
        if i < data.length then data.getD i 0 else s.readbuf (1 + i) := by
  intro i hi
  rw [execOp_write_cap]
  dsimp only
  rw [write_cap_readbuf0 s idx data]
  rw [memcpyBuf_in _ _ _ _ _ _ (by omega) (by omega)]
  have harg : 1 + ((s.caps idx).ptr + i - (s.caps idx).ptr) = 1 + i := by omega
  rw [harg]
  by_cases hlt : i < data.length
  · rw [if_pos (by omega), if_pos hlt]
    have hsucc : 1 + i = i + 1 := by omega
    rw [hsucc, List.getD_cons_succ]
  · rw [if_neg (by omega), if_neg hlt, if_neg (by omega), if_neg (by omega)]

lemma write_cap_mem_out (s : KState) (idx : Nat) (data : List Nat) :
    ∀ a, a < (s.caps idx).ptr ∨ (s.caps idx).ptr + (s.caps idx).size ≤ a →
      ((execOp 4 { s with readbuf := fun j => if j < data.length + 1 then (idx :: data).getD j 0 else if j = 0 then 4 else if j = 1 then data.length + 1 else s.readbuf j }).1).mem a =
        s.mem a := by
  intro a ha
  rw [execOp_write_cap]
  dsimp only
  rw [write_cap_readbuf0 s idx data]
  exact memcpyBuf_out _ _ _ _ _ _ ha

end KDB

namespace KDB

/-- C1 counterexample: the byte stream 0xA0, 0x05, 0x1E, 0x00, 0x00 does
not contain the contiguous subsequence 0xA0, 0x1E, yet the reader
completes (and dispatches) a frame from it: the armed flag set by the
lone 0xA0 is not cleared by the intervening 0x05, so the later 0x1E
completes a frame. This refutes the claim that a lone 0xA0 not
immediately followed by 0x1E is discarded. -/
theorem C1_counterexample :
    hasSyncPair [160, 5, 30, 0, 0] = false ∧
      (readOp st0 [160, 5, 30, 0, 0] 255).frames = [⟨0, []⟩] := by
  constructor
  · rfl
  · rfl

/-- C1 (amended): for every input byte sequence that contains no 0xA0
byte at all, the frame reader never completes a frame; a lone 0xA0 not
immediately followed by 0x1E is not discarded — the reader stays armed
and any later 0x1E completes a frame. -/
theorem C1_no_sync_byte_no_frame (s : KState) (input : List Nat) (maxloop : Nat)
    (h : 160 ∉ input) : (readOp s input maxloop).frames = [] :=
  readOpGo_no_sync (input.length + 256) s input 0 maxloop h (by omega)

/-- Witness for the amended C1 theorem at a concrete input. -/
theorem C1_no_sync_byte_no_frame_witness :
    160 ∉ [30, 5, 30] ∧ (readOp st0 [30, 5, 30] 255).frames = [] :=
  ⟨by decide, C1_no_sync_byte_no_frame st0 [30, 5, 30] 255 (by decide)⟩

/-- C2: for every frame with opcode byte op and payload p of length at
most 32, encoding it with sendOp (sync bytes, opcode, length, then the
payload bytes from the scratch buffer) and feeding the produced byte
stream to the frame reader makes the reader complete exactly that frame
back: same opcode, same length, same payload. -/
theorem C2_frame_roundtrip (op : Nat) (p : List Nat) (s : KState)
    (hop : op < 256) (hlen : p.length ≤ 32) (hbytes : ∀ b ∈ p, b < 256)
    (hrun : s.loops = true) :
    (readOp s (sendOp (bufOfList p) op p.length) 255).frames = [⟨op, p⟩] :=
  readOp_sendOp_frames op p s hrun

/-- Witness for the C2 round-trip theorem at a concrete frame. -/
theorem C2_frame_roundtrip_witness :
    (readOp st0 (sendOp (bufOfList [1, 2, 3]) 9 3) 255).frames = [⟨9, [1, 2, 3]⟩] :=
  C2_frame_roundtrip 9 [1, 2, 3] st0 (by decide) (by decide) (by decide) rfl

/-- C3 (code evaluated at the failing input): a frame header declaring
payload length 33 is not rejected; readSize happily stores the 33rd byte
at scratch index 32, one past the last cell of the 32-byte readbuf array
(an out-of-bounds write in the C code), both at readSize level and
through a full doOp dispatch, while a declared length of 32 leaves index
32 untouched. -/
theorem C3_oversized_length_overruns :
    ((readSize (fun _ => 0) ((List.range 33).map (fun i => i + 1)) 33).map
      (fun r => r.1 32)) = some 33 ∧
    ((readSize (fun _ => 0) ((List.range 33).map (fun i => i + 1)) 32).map
      (fun r => r.1 32)) = some 0 ∧
    ((doOp st0 (255 :: 33 :: (List.range 33).map (fun i => i + 1))).map
      (fun r => r.1.readbuf 32)) = some 33 := by
  refine ⟨rfl, rfl, rfl⟩

/-- C4 (code evaluated at the failing inputs): registering a 33rd capture
slot is not rejected — capture writes table index 32 (one past the last
cell of the 32-entry caps array, an out-of-bounds write in the C code)
and bumps capsize to 33; and a READ_CAP lookup of slot 5 in a session
with no registered slots is not rejected either — the dispatch emits a
READ_CAP_RES response built from whatever caps[5] holds. -/
theorem C4_capture_table_unchecked :
    (capture 7 1000 4 { st0 with capsize := 32 }).1.capsize = 33 ∧
    (capture 7 1000 4 { st0 with capsize := 32 }).1.caps 32 = ⟨4, 1000⟩ ∧
    (execOp 3 { st0 with readbuf := writeBuf st0.readbuf 0 5 }).2 = [160, 30, 11, 0] := by
  refine ⟨rfl, rfl, rfl⟩

/-- C5: starting from a reset capture table (capsize = 0), a sequence of
at most 32 registrations assigns the i-th registration (from 0) slot
index i: the final capsize equals the number of registrations, the
announced CAPTURE frame of the i-th call carries i in its last payload
byte (stream byte 11), and table entry i holds the i-th registration's
size and address, so indices are sequential and never reused. -/
theorem C5_sequential_slot_indices (regs : List (Nat × Nat × Nat)) (s : KState)
    (hreset : s.capsize = 0) (hlen : regs.length ≤ 32) :
    (captureSeq regs s).1.capsize = regs.length ∧
    ∀ i, i < regs.length →
      ((captureSeq regs s).2.getD i []).getD 11 0 = i ∧
      (captureSeq regs s).1.caps i =
        ⟨(regs.getD i (0, 0, 0)).2.2, (regs.getD i (0, 0, 0)).2.1⟩ := by
  obtain ⟨h1, h2, h3⟩ := captureSeq_spec regs s (by omega)
  rw [hreset] at h1 h3
  simp only [Nat.zero_add] at h1 h3
  exact ⟨h1, h3⟩

/-- Witness for the C5 theorem at a concrete registration sequence. -/
theorem C5_sequential_slot_indices_witness :
    (captureSeq [(7, 500, 4), (8, 600, 2)] st0).1.capsize = 2 ∧
    ((captureSeq [(7, 500, 4), (8, 600, 2)] st0).2.getD 1 []).getD 11 0 = 1 ∧
    (captureSeq [(7, 500, 4), (8, 600, 2)] st0).1.caps 1 = ⟨2, 600⟩ := by
  obtain ⟨h1, h2⟩ := C5_sequential_slot_indices [(7, 500, 4), (8, 600, 2)] st0 rfl (by decide)
  obtain ⟨h3, h4⟩ := h2 1 (by decide)
  exact ⟨h1, h3, h4⟩

/-- C6: dispatching a RETURN frame while the session loop is waiting
(loops = true, unbounded budget) clears the running flag, emits no
response bytes, and the loop exits on its very next iteration check,
leaving the remainder of the input unread. -/
theorem C6_return_clears_running (s : KState) (rest : List Nat) (hrun : s.loops = true) :
    (readOp s (160 :: 30 :: 0 :: 0 :: rest) 255).output = [] ∧
    (readOp s (160 :: 30 :: 0 :: 0 :: rest) 255).frames = [⟨0, []⟩] ∧
    ∃ b, (readOp s (160 :: 30 :: 0 :: 0 :: rest) 255).final =
      some ({ s with readbuf := b, loops := false }, rest) := by
  unfold readOp
  have hlen : (160 :: 30 :: 0 :: 0 :: rest).length + 256 = (rest.length + 259) + 1 := by
    simp
  rw [hlen]
  rw [readOpGo_sync (rest.length + 259) s (30 :: 0 :: 0 :: rest) 0 255 hrun (by simp), tick_255]
  have h259 : rest.length + 259 = (rest.length + 258) + 1 := by omega
  rw [h259]
  have hd := doOp_eq s 0 [] rest
  simp only [List.length_nil, List.nil_append] at hd
  rw [readOpGo_dispatch (rest.length + 258) s (0 :: 0 :: rest) 255 _ _ _ _ hrun (by simp) hd]
  dsimp only
  rw [tick_255]
  have h258 : rest.length + 258 = (rest.length + 257) + 1 := by omega
  rw [h258, readOpGo_stop (rest.length + 257) _ rest 0 255 rfl]
  refine ⟨rfl, rfl,
    ⟨fun j => if j < 0 then ([] : List Nat).getD j 0
      else if j = 0 then 0 else if j = 1 then 0 else s.readbuf j, rfl⟩⟩

/-- Witness for the C6 theorem at a concrete stream. -/
theorem C6_return_clears_running_witness :
    (readOp st0 [160, 30, 0, 0, 5] 255).output = [] ∧
    (readOp st0 [160, 30, 0, 0, 5] 255).frames = [⟨0, []⟩] := by
  obtain ⟨h1, h2, -⟩ := C6_return_clears_running st0 [5] rfl
  exact ⟨h1, h2⟩

/-- C7: init sets the running flag and resets the capture table, then
repeats announce-and-wait rounds: with no host bytes at all it never
returns (final is none at every fuel) while emitting one INIT
announcement per round, the announcement carrying the line number
big-endian (for line < 2^16) after the sync bytes, opcode 7 and length
2; and whenever init does return, the running flag is false, the capture
table is still empty, and a RETURN operation was dispatched. -/
theorem C7_init_announce_retry (fuel line : Nat) (s : KState) (input : List Nat) :
    (input = [] →
      (init fuel line s input).final = none ∧
      (init fuel line s input).output = repConcat fuel (initAnnounce line)) ∧
    (∀ s2 rest, (init fuel line s input).final = some (s2, rest) →
      s2.loops = false ∧ s2.capsize = 0 ∧
      ∃ f ∈ (init fuel line s input).frames, f.opcode = OpType.RETURN.toByte) ∧
    (line < 65536 → initAnnounce line = [160, 30, 7, 2, line / 256, line % 256]) := by
  refine ⟨?_, ?_, ?_⟩
  · intro hin
    subst hin
    unfold init
    rw [initLoop_nil fuel line { s with loops := true, capsize := 0 } rfl]
    exact ⟨rfl, rfl⟩
  · intro s2 rest hfin
    unfold init at hfin ⊢
    obtain ⟨h1, h2, h3⟩ := initLoop_final fuel line _ input s2 rest hfin
    exact ⟨h1, h2, h3 rfl⟩
  · intro hline
    unfold initAnnounce
    have hpow : (2 : Nat) ^ 8 = 256 := by norm_num
    have hs : (line >>> 8) % 256 = line / 256 := by
      rw [Nat.shiftRight_eq_div_pow, hpow]
      omega
    rw [hs]
    rfl

/-- Witness for the C7 theorem: two silent rounds produce two
announcements and no return; a RETURN frame makes init return with a
RETURN dispatch recorded; and the announcement for line 300 is its
big-endian encoding. -/
theorem C7_init_announce_retry_witness :
    (init 2 300 st0 []).final = none ∧
    (init 2 300 st0 []).output = repConcat 2 (initAnnounce 300) ∧
    (∃ f ∈ (init 5 300 st0 [160, 30, 0, 0]).frames, f.opcode = OpType.RETURN.toByte) ∧
    initAnnounce 300 = [160, 30, 7, 2, 1, 44] := by
  obtain ⟨ha, hb, hc⟩ := C7_init_announce_retry 2 300 st0 []
  obtain ⟨h1, h2⟩ := ha rfl
  obtain ⟨-, hb5, -⟩ := C7_init_announce_retry 5 300 st0 [160, 30, 0, 0]
  have hfin : (init 5 300 st0 [160, 30, 0, 0]).final.isSome = true := rfl
  obtain ⟨q, hq⟩ := Option.isSome_iff_exists.mp hfin
  obtain ⟨s2, rest⟩ := q
  obtain ⟨-, -, h3⟩ := hb5 s2 rest hq
  have h4 := hc (by omega)
  refine ⟨h1, h2, h3, ?_⟩
  rw [h4]

/-- C8 counterexample: print truncates the string length into a uint8_t
before capping it at 29, so a 256-character string is emitted with zero
text bytes (payload length 3), not with its first 29 bytes as the claim
as stated would require. -/
theorem C8_counterexample :
    (print 5 (List.replicate 256 97) st0).2 = [160, 30, 13, 3, 0, 5, 0] ∧
    [160, 30, 13, 3, 0, 5, 0] ≠
      160 :: 30 :: 13 :: 32 :: 0 :: 5 :: 0 :: List.take 29 (List.replicate 256 97) := by
  constructor
  · rfl
  · decide

/-- C8 (amended): for every print or println call with line < 2^16, the
emitted frame has opcode PRINT (13) and payload consisting of the 2-byte
big-endian line number, one print-kind byte (0 for print, 1 for
println), then the text truncated to min(length mod 256, 29) bytes — the
string length is first narrowed into a uint8_t and then capped at 29 —
so the total payload length is at most 32. -/
theorem C8_print_payload (line : Nat) (str : List Nat) (s : KState) (hline : line < 65536) :
    (print line str s).2 =
      160 :: 30 :: 13 :: (min (str.length % 256) 29 + 3) :: (line / 256) :: (line % 256) :: 0 ::
        str.take (min (str.length % 256) 29) ∧
    (println line str s).2 =
      160 :: 30 :: 13 :: (min (str.length % 256) 29 + 3) :: (line / 256) :: (line % 256) :: 1 ::
        str.take (min (str.length % 256) 29) ∧
    min (str.length % 256) 29 + 3 ≤ 32 := by
  have hmin : (if 29 < str.length % 256 then 29 else str.length % 256) =
      min (str.length % 256) 29 := by
    rw [Nat.min_def]
    split_ifs <;> omega
  have hpow : (2 : Nat) ^ 8 = 256 := by norm_num
  have hdiv : (line >>> 8) % 256 = line / 256 := by
    rw [Nat.shiftRight_eq_div_pow, hpow]
    omega
  refine ⟨?_, ?_, ?_⟩
  · rw [print_out, hmin, hdiv]
  · rw [println_out, hmin, hdiv]
  · have := Nat.min_le_right (str.length % 256) 29
    omega

/-- Witness for the amended C8 theorem at a concrete call. -/
theorem C8_print_payload_witness :
    (print 5 [72, 73] st0).2 = [160, 30, 13, 5, 0, 5, 0, 72, 73] ∧
    (println 5 [72, 73] st0).2 = [160, 30, 13, 5, 0, 5, 1, 72, 73] := by
  obtain ⟨h1, h2, -⟩ := C8_print_payload 5 [72, 73] st0 (by omega)
  exact ⟨h1.trans (by decide), h2.trans (by decide)⟩

/-- C9: for a registered slot (index below capsize), READ_CAP responds
with a frame of exactly the slot's registered size, carrying the slot's
current memory bytes; WRITE_CAP emits nothing and copies exactly the
slot's registered size bytes from scratch positions 1 onward into the
slot's address, ignoring the frame's declared data length: a frame
carrying fewer data bytes than the slot size still writes size bytes,
the tail coming from the stale scratch buffer, and memory outside the
slot is untouched. -/
theorem C9_cap_transfer_size (s : KState) (idx : Nat) (data rest : List Nat)
    (hreg : idx < s.capsize) (hdata : 1 ≤ data.length) :
    (∃ s3, doOp s (3 :: 1 :: idx :: rest) =
      some (s3, rest,
        160 :: 30 :: 11 :: (s.caps idx).size ::
          (List.range (s.caps idx).size).map (fun i => s.mem ((s.caps idx).ptr + i)),
        ⟨3, [idx]⟩)) ∧
    (∃ s4, doOp s (4 :: (data.length + 1) :: idx :: (data ++ rest)) =
      some (s4, rest, [], ⟨4, idx :: data⟩) ∧
      (∀ i, i < (s.caps idx).size →
        s4.mem ((s.caps idx).ptr + i) =
          if i < data.length then data.getD i 0 else s.readbuf (1 + i)) ∧
      (∀ a, a < (s.caps idx).ptr ∨ (s.caps idx).ptr + (s.caps idx).size ≤ a →
        s4.mem a = s.mem a)) :=
  ⟨⟨_, doOp_read_cap s idx rest⟩,
    ⟨_, doOp_write_cap s idx data rest, write_cap_mem_in s idx data hdata,
      write_cap_mem_out s idx data⟩⟩

/-- Witness for the C9 theorem on a slot of size 2 at address 100: the
READ_CAP response carries exactly 2 memory bytes, and a WRITE_CAP frame
carrying one data byte writes that byte plus one stale scratch byte. -/
theorem C9_cap_transfer_size_witness :
    (doOp stCap [3, 1, 0]).map (fun r => r.2.2.1) = some [160, 30, 11, 2, 2, 3] ∧
    (doOp stCap [4, 2, 0, 9]).map (fun r => r.1.mem 100) = some 9 ∧
    (doOp stCap [4, 2, 0, 9]).map (fun r => r.1.mem 101) = some 42 := by
  obtain ⟨⟨s3, h3⟩, ⟨s4, h4, hmem, -⟩⟩ :=
    C9_cap_transfer_size stCap 0 [9] [] (by decide) (by decide)
  have h4e : doOp stCap [4, 2, 0, 9] = some (s4, [], [], ⟨4, [0, 9]⟩) := h4
  refine ⟨?_, ?_, ?_⟩
  · rw [h3]
    rfl
  · rw [h4e]
    exact congrArg some (hmem 0 (by decide))
  · rw [h4e]
    exact congrArg some (hmem 1 (by decide))

/-- C10: the wire opcode bytes are fixed by the enumeration order,
RETURN = 0 through PRINT = 13, and the frames the program emits use
exactly these values: capture announces opcode 9, print and println 13,
debugger 8, init 7, and the dispatch responses use 10, 11 and 12; the
dispatch switch itself compares the received opcode byte against the
same enumeration values. -/
theorem C10_opcode_bytes :
    OpType.RETURN.toByte = 0 ∧ OpType.READ_MEM.toByte = 1 ∧ OpType.WRITE_MEM.toByte = 2 ∧
    OpType.READ_CAP.toByte = 3 ∧ OpType.WRITE_CAP.toByte = 4 ∧ OpType.READ_PIN.toByte = 5 ∧
    OpType.WRITE_PIN.toByte = 6 ∧ OpType.INIT.toByte = 7 ∧ OpType.DEBUGGER.toByte = 8 ∧
    OpType.CAPTURE.toByte = 9 ∧ OpType.READ_MEM_RES.toByte = 10 ∧
    OpType.READ_CAP_RES.toByte = 11 ∧ OpType.READ_PIN_RES.toByte = 12 ∧
    OpType.PRINT.toByte = 13 ∧
    (capture 1 2 3 st0).2.getD 2 0 = OpType.CAPTURE.toByte ∧
    (print 1 [] st0).2.getD 2 0 = OpType.PRINT.toByte ∧
    (println 1 [] st0).2.getD 2 0 = OpType.PRINT.toByte ∧
    (debugger 1 st0 []).output.getD 2 0 = OpType.DEBUGGER.toByte ∧
    (init 1 1 st0 []).output.getD 2 0 = OpType.INIT.toByte ∧
    (execOp 1 st0).2.getD 2 0 = OpType.READ_MEM_RES.toByte ∧
    (execOp 5 st0).2.getD 2 0 = OpType.READ_PIN_RES.toByte ∧
    (execOp 3 st0).2.getD 2 0 = OpType.READ_CAP_RES.toByte := by
  decide

end KDB
